import Mathlib

/-!
Verification of the UTF-8 codec in src/utf8.py.

The source manipulates bytes as 8-character strings of "0"/"1" digits.
This development embeds each byte as the natural number the 8-bit string
denotes (a `Nat` below 256).  Tests on string prefixes become arithmetic
range tests on the value:

* `byte.startswith("0")`  is  `byte < 128`
* `byte.startswith("11")` is  `192 ≤ byte`
* `byte.startswith("10")` is  `128 ≤ byte < 192`

Concatenating bit strings becomes shift-and-add arithmetic; for example
appending the low 6 bits of a continuation byte (`byte[2:]`) to an
accumulator is `acc * 64 + byte % 64`, exactly the value of the
concatenated string read in base 2.

Run-time exceptions of the Python code (TypeError, AssertionError,
ValueError, UnicodeEncodeError) are modelled with an `Except` result:
`Except.error e` means the run aborts at that point with exception `e`
(warnings already emitted before the abort are dropped together with the
rest of the output, since the process dies).
-/

namespace Utf8

/-- The Python exceptions that the code in src/utf8.py can raise while
decoding or encoding. -/
inductive PyError where
  | typeError
  | assertionError
  | valueError
  | unicodeEncodeError
  deriving DecidableEq

/-- The reason tags of the warnings `chunk_byte_sequence` logs:
"not enough continuation bytes", "misplaced continuation byte",
"more than 4 bytes". -/
inductive FaultKind where
  | tooFew
  | misplaced
  | tooMany
  deriving DecidableEq

/-- One observable output of `chunk_byte_sequence`: either a yielded chunk
of bytes, or a logged warning about the given bytes. -/
inductive Item where
  | chunk (bytes : List Nat) : Item
  | fault (kind : FaultKind) (bytes : List Nat) : Item
  deriving DecidableEq

/-- Count of leading 1 bits of the 8-bit binary representation of `b`,
i.e. the length of the group matched by the regular expression `(1+)` in
`^(1+)0` (src/utf8.py line 188), extended with 0 for bytes whose first
bit is 0.  The value 8 (for `b = 255`) corresponds to the case where the
regular expression does not match at all, because no 0 follows. -/
def leadingOnes (b : Nat) : Nat :=
  if b < 128 then 0
  else if b < 192 then 1
  else if b < 224 then 2
  else if b < 240 then 3
  else if b < 248 then 4
  else if b < 252 then 5
  else if b < 254 then 6
  else if b < 255 then 7
  else 8

/-- The loop body of `chunk_byte_sequence` (src/utf8.py lines 171-206),
with the loop state (`bytes_togo`, `char_bytes`) passed explicitly.
Every branch mirrors the source:

* the byte is first appended to `char_bytes` (line 175);
* a byte starting with "0" (line 176): when `bytes_togo > 0` the warning
  call evaluates `" ".join(bytes_togo)` on an int (line 179), which
  raises TypeError; otherwise the (appended) buffer is yielded;
* a byte starting with "11" (line 182): when `bytes_togo > 0` a
  too-few-continuation-bytes warning is logged for `char_bytes` — which
  already contains the new leader — and the buffer is cleared, so the
  fresh sequence starts EMPTY; the regex then requires a 0 bit after the
  leading 1 bits, so byte 255 fails the `assert match` (line 189);
  `bytes_togo` becomes the count of leading 1 bits minus one;
* a byte starting with "10" (line 192): with no pending leader the byte
  is reported as misplaced and the buffer cleared; otherwise it counts
  against `bytes_togo`, and on reaching 0 the chunk is yielded, preceded
  by a more-than-4-bytes warning when it is longer than 4;
* at end of input a non-empty buffer is reported, not yielded. -/
def chunkLoop (bytes_togo : Nat) (char_bytes : List Nat) :
    List Nat → Except PyError (List Item)
  | [] =>
    if char_bytes = [] then Except.ok []
    else Except.ok [Item.fault FaultKind.tooFew char_bytes]
  | byte :: rest =>
    if byte < 128 then
      if 0 < bytes_togo then
        Except.error PyError.typeError
      else
        match chunkLoop 0 [] rest with
        | Except.error e => Except.error e
        | Except.ok items => Except.ok (Item.chunk (char_bytes ++ [byte]) :: items)
    else if 192 ≤ byte then
      if byte = 255 then Except.error PyError.assertionError
      else if 0 < bytes_togo then
        match chunkLoop (leadingOnes byte - 1) [] rest with
        | Except.error e => Except.error e
        | Except.ok items =>
          Except.ok (Item.fault FaultKind.tooFew (char_bytes ++ [byte]) :: items)
      else
        chunkLoop (leadingOnes byte - 1) (char_bytes ++ [byte]) rest
    else
      if bytes_togo = 0 then
        match chunkLoop 0 [] rest with
        | Except.error e => Except.error e
        | Except.ok items => Except.ok (Item.fault FaultKind.misplaced [byte] :: items)
      else if bytes_togo = 1 then
        match chunkLoop 0 [] rest with
        | Except.error e => Except.error e
        | Except.ok items =>
          if 4 < (char_bytes ++ [byte]).length then
            Except.ok (Item.fault FaultKind.tooMany (char_bytes ++ [byte]) ::
              Item.chunk (char_bytes ++ [byte]) :: items)
          else
            Except.ok (Item.chunk (char_bytes ++ [byte]) :: items)
      else
        chunkLoop (bytes_togo - 1) (char_bytes ++ [byte]) rest

/-- `chunk_byte_sequence` (src/utf8.py lines 171-206): both counters
start at zero / empty. -/
def chunk_byte_sequence (input_bytes : List Nat) : Except PyError (List Item) :=
  chunkLoop 0 [] input_bytes

/-- The bits remaining after `re.sub(r"^1+0", "", byte)` on the leading
byte of a multibyte sequence (src/utf8.py line 220), as a value: the low
`8 - (leadingOnes b) - 1` bits.  For `b = 255` the pattern does not
match and `re.sub` returns the string unchanged, hence the value 255. -/
def stripLeaderBits (b : Nat) : Nat :=
  if b = 255 then 255 else b % 2 ^ (7 - leadingOnes b)

/-- The loop of `char_bytes_to_code_point` (src/utf8.py lines 209-229).
The accumulator is `none` while `code_point_bits is None`.  An ASCII
first byte returns immediately (the `break`); a leading byte seeds the
accumulator with its stripped bits; any other first byte raises
ValueError (line 224).  In continuation position the code asserts the
byte starts with "10" (line 227) and appends its low 6 bits
(`byte[2:]`, line 228).  `int(None, 2)` on an empty chunk raises
TypeError. -/
def assembleLoop : Option Nat → List Nat → Except PyError Nat
  | none, [] => Except.error PyError.typeError
  | some acc, [] => Except.ok acc
  | none, byte :: rest =>
    if byte < 128 then Except.ok byte
    else if 192 ≤ byte then assembleLoop (some (stripLeaderBits byte)) rest
    else Except.error PyError.valueError
  | some acc, byte :: rest =>
    if 128 ≤ byte ∧ byte < 192 then assembleLoop (some (acc * 64 + byte % 64)) rest
    else Except.error PyError.assertionError

/-- `char_bytes_to_code_point` (src/utf8.py lines 209-229). -/
def char_bytes_to_code_point (char_bytes : List Nat) : Except PyError Nat :=
  assembleLoop none char_bytes

/-- The encode path of `code_points_to_output` (src/utf8.py lines
109-113) runs `bytes(chr(code_point), "utf8")`, i.e. the CPython UTF-8
encoder.  Its semantics: 1/2/3/4 bytes by the standard length table,
`chr` raises ValueError above 0x10FFFF, and the utf-8 codec raises
UnicodeEncodeError on the surrogate range 0xD800-0xDFFF ("surrogates
not allowed"). -/
def encode_code_point (code_point : Nat) : Except PyError (List Nat) :=
  if code_point < 0x80 then
    Except.ok [code_point]
  else if code_point < 0x800 then
    Except.ok [192 + code_point / 64, 128 + code_point % 64]
  else if code_point < 0x10000 then
    if 0xD800 ≤ code_point ∧ code_point ≤ 0xDFFF then
      Except.error PyError.unicodeEncodeError
    else
      Except.ok [224 + code_point / 4096, 128 + code_point / 64 % 64, 128 + code_point % 64]
  else if code_point < 0x110000 then
    Except.ok [240 + code_point / 262144, 128 + code_point / 4096 % 64,
      128 + code_point / 64 % 64, 128 + code_point % 64]
  else
    Except.error PyError.valueError

/-- The byte list of a successful encode (empty when encoding raised). -/
def utf8_bytes (code_point : Nat) : List Nat :=
  (encode_code_point code_point).toOption.getD []

/-! Single-step evaluation lemmas for `chunkLoop`, one per branch of the
source loop, used to run the chunker symbolically. -/

lemma chunkLoop_nil_empty (togo : Nat) : chunkLoop togo [] [] = Except.ok [] := rfl

lemma chunkLoop_nil_pending (togo : Nat) (cbs : List Nat) (h : cbs ≠ []) :
    chunkLoop togo cbs [] = Except.ok [Item.fault FaultKind.tooFew cbs] := by
  simp only [chunkLoop]
  rw [if_neg h]

lemma chunk_step_ascii (cbs : List Nat) (b : Nat) (rest : List Nat) (items : List Item)
    (hb : b < 128) (h : chunkLoop 0 [] rest = Except.ok items) :
    chunkLoop 0 cbs (b :: rest) = Except.ok (Item.chunk (cbs ++ [b]) :: items) := by
  simp only [chunkLoop]
  rw [if_pos hb, if_neg (by omega), h]

lemma chunk_step_leader (cbs : List Nat) (b : Nat) (rest : List Nat)
    (items : List Item) (hb : 192 ≤ b) (hb2 : b ≠ 255)
    (h : chunkLoop (leadingOnes b - 1) (cbs ++ [b]) rest = Except.ok items) :
    chunkLoop 0 cbs (b :: rest) = Except.ok items := by
  simp only [chunkLoop]
  rw [if_neg (by omega), if_pos hb, if_neg hb2, if_neg (by omega), h]

lemma chunk_step_cont_mid (togo : Nat) (cbs : List Nat) (b : Nat) (rest : List Nat)
    (hb : 128 ≤ b) (hb2 : b < 192) (ht : 2 ≤ togo) :
    chunkLoop togo cbs (b :: rest) = chunkLoop (togo - 1) (cbs ++ [b]) rest := by
  simp only [chunkLoop]
  rw [if_neg (by omega), if_neg (by omega), if_neg (by omega), if_neg (by omega)]

lemma chunk_step_cont_complete (cbs : List Nat) (b : Nat) (rest : List Nat)
    (items : List Item) (hb : 128 ≤ b) (hb2 : b < 192)
    (hlen : (cbs ++ [b]).length ≤ 4) (h : chunkLoop 0 [] rest = Except.ok items) :
    chunkLoop 1 cbs (b :: rest) = Except.ok (Item.chunk (cbs ++ [b]) :: items) := by
  simp only [chunkLoop]
  rw [if_neg (by omega), if_neg (by omega), if_neg (by omega), if_pos trivial, h]
  simp only []
  rw [if_neg (by omega)]

lemma chunk_step_cont_misplaced (cbs : List Nat) (b : Nat) (rest : List Nat)
    (items : List Item) (hb : 128 ≤ b) (hb2 : b < 192)
    (h : chunkLoop 0 [] rest = Except.ok items) :
    chunkLoop 0 cbs (b :: rest) =
      Except.ok (Item.fault FaultKind.misplaced [b] :: items) := by
  simp only [chunkLoop]
  rw [if_neg (by omega), if_neg (by omega), if_pos trivial, h]

/-! Range characterisations of `leadingOnes` and `stripLeaderBits`. -/

lemma leadingOnes_two (b : Nat) (h1 : 192 ≤ b) (h2 : b < 224) : leadingOnes b = 2 := by
  unfold leadingOnes; split_ifs <;> omega

lemma leadingOnes_three (b : Nat) (h1 : 224 ≤ b) (h2 : b < 240) : leadingOnes b = 3 := by
  unfold leadingOnes; split_ifs <;> omega

lemma leadingOnes_four (b : Nat) (h1 : 240 ≤ b) (h2 : b < 248) : leadingOnes b = 4 := by
  unfold leadingOnes; split_ifs <;> omega

lemma stripLeaderBits_two (b : Nat) (h1 : 192 ≤ b) (h2 : b < 224) :
    stripLeaderBits b = b % 32 := by
  unfold stripLeaderBits
  rw [if_neg (by omega), leadingOnes_two b h1 h2]
  norm_num

lemma stripLeaderBits_three (b : Nat) (h1 : 224 ≤ b) (h2 : b < 240) :
    stripLeaderBits b = b % 16 := by
  unfold stripLeaderBits
  rw [if_neg (by omega), leadingOnes_three b h1 h2]
  norm_num

lemma stripLeaderBits_four (b : Nat) (h1 : 240 ≤ b) (h2 : b < 248) :
    stripLeaderBits b = b % 8 := by
  unfold stripLeaderBits
  rw [if_neg (by omega), leadingOnes_four b h1 h2]
  norm_num

/-! Single-step evaluation lemmas for `assembleLoop`. -/

lemma asm_done (acc : Nat) : assembleLoop (some acc) [] = Except.ok acc := rfl

lemma asm_ascii (b : Nat) (rest : List Nat) (h : b < 128) :
    assembleLoop none (b :: rest) = Except.ok b := by
  simp only [assembleLoop]
  rw [if_pos h]

lemma asm_leader (b : Nat) (rest : List Nat) (h : 192 ≤ b) :
    assembleLoop none (b :: rest) = assembleLoop (some (stripLeaderBits b)) rest := by
  simp only [assembleLoop]
  rw [if_neg (by omega), if_pos h]

lemma asm_cont (acc b : Nat) (rest : List Nat) (h1 : 128 ≤ b) (h2 : b < 192) :
    assembleLoop (some acc) (b :: rest) =
      assembleLoop (some (acc * 64 + b % 64)) rest := by
  simp only [assembleLoop]
  rw [if_pos ⟨h1, h2⟩]

/-! Evaluation of `encode_code_point` on each range. -/

lemma encode_one (cp : Nat) (h : cp < 0x80) :
    encode_code_point cp = Except.ok [cp] := by
  unfold encode_code_point
  rw [if_pos h]

lemma encode_two (cp : Nat) (h1 : 0x80 ≤ cp) (h2 : cp < 0x800) :
    encode_code_point cp = Except.ok [192 + cp / 64, 128 + cp % 64] := by
  unfold encode_code_point
  rw [if_neg (by omega), if_pos h2]

lemma encode_three (cp : Nat) (h1 : 0x800 ≤ cp) (h2 : cp < 0x10000)
    (hs : cp < 0xD800 ∨ 0xDFFF < cp) :
    encode_code_point cp =
      Except.ok [224 + cp / 4096, 128 + cp / 64 % 64, 128 + cp % 64] := by
  unfold encode_code_point
  rw [if_neg (by omega), if_neg (by omega), if_pos h2, if_neg (by omega)]

lemma encode_surrogate (cp : Nat) (h1 : 0xD800 ≤ cp) (h2 : cp ≤ 0xDFFF) :
    encode_code_point cp = Except.error PyError.unicodeEncodeError := by
  unfold encode_code_point
  rw [if_neg (by omega), if_neg (by omega), if_pos (by omega), if_pos ⟨h1, h2⟩]

lemma encode_four (cp : Nat) (h1 : 0x10000 ≤ cp) (h2 : cp < 0x110000) :
    encode_code_point cp =
      Except.ok [240 + cp / 262144, 128 + cp / 4096 % 64,
        128 + cp / 64 % 64, 128 + cp % 64] := by
  unfold encode_code_point
  rw [if_neg (by omega), if_neg (by omega), if_neg (by omega), if_pos h2]

/-- Chunking a well-formed two-byte sequence yields it as one chunk. -/
lemma chunk_two (l c : Nat) (hl1 : 192 ≤ l) (hl2 : l < 224)
    (hc1 : 128 ≤ c) (hc2 : c < 192) :
    chunk_byte_sequence [l, c] = Except.ok [Item.chunk [l, c]] := by
  have e1 : chunkLoop (leadingOnes l - 1) [l] [c] =
      Except.ok (Item.chunk ([l] ++ [c]) :: []) := by
    rw [leadingOnes_two l hl1 hl2]
    exact chunk_step_cont_complete [l] c [] [] hc1 hc2 (by simp) (chunkLoop_nil_empty 0)
  exact chunk_step_leader [] l [c] _ hl1 (by omega) e1

/-- Chunking a well-formed three-byte sequence yields it as one chunk. -/
lemma chunk_three (l c1 c2 : Nat) (hl1 : 224 ≤ l) (hl2 : l < 240)
    (hc1 : 128 ≤ c1) (hc12 : c1 < 192) (hc2 : 128 ≤ c2) (hc22 : c2 < 192) :
    chunk_byte_sequence [l, c1, c2] = Except.ok [Item.chunk [l, c1, c2]] := by
  have e1 : chunkLoop 1 [l, c1] [c2] = Except.ok (Item.chunk ([l, c1] ++ [c2]) :: []) :=
    chunk_step_cont_complete [l, c1] c2 [] [] hc2 hc22 (by simp) (chunkLoop_nil_empty 0)
  have e2 : chunkLoop (leadingOnes l - 1) [l] [c1, c2] =
      Except.ok [Item.chunk [l, c1, c2]] := by
    rw [leadingOnes_three l hl1 hl2]
    rw [chunk_step_cont_mid 2 [l] c1 [c2] hc1 hc12 (by omega)]
    exact e1
  exact chunk_step_leader [] l [c1, c2] _ (by omega) (by omega) e2

/-- Chunking a well-formed four-byte sequence yields it as one chunk. -/
lemma chunk_four (l c1 c2 c3 : Nat) (hl1 : 240 ≤ l) (hl2 : l < 248)
    (hc1 : 128 ≤ c1) (hc12 : c1 < 192) (hc2 : 128 ≤ c2) (hc22 : c2 < 192)
    (hc3 : 128 ≤ c3) (hc32 : c3 < 192) :
    chunk_byte_sequence [l, c1, c2, c3] = Except.ok [Item.chunk [l, c1, c2, c3]] := by
  have e1 : chunkLoop 1 [l, c1, c2] [c3] =
      Except.ok (Item.chunk ([l, c1, c2] ++ [c3]) :: []) :=
    chunk_step_cont_complete [l, c1, c2] c3 [] [] hc3 hc32 (by simp) (chunkLoop_nil_empty 0)
  have e2 : chunkLoop (leadingOnes l - 1) [l] [c1, c2, c3] =
      Except.ok [Item.chunk [l, c1, c2, c3]] := by
    rw [leadingOnes_four l hl1 hl2]
    rw [chunk_step_cont_mid 3 [l] c1 [c2, c3] hc1 hc12 (by omega)]
    show chunkLoop 2 [l, c1] [c2, c3] = Except.ok [Item.chunk [l, c1, c2, c3]]
    rw [chunk_step_cont_mid 2 [l, c1] c2 [c3] hc2 hc22 (by omega)]
    exact e1
  exact chunk_step_leader [] l [c1, c2, c3] _ (by omega) (by omega) e2

/-- Assembling the two-byte encoding of `cp` recovers `cp`. -/
lemma asm_two (cp : Nat) (h1 : 0x80 ≤ cp) (h2 : cp < 0x800) :
    char_bytes_to_code_point [192 + cp / 64, 128 + cp % 64] = Except.ok cp := by
  unfold char_bytes_to_code_point
  rw [asm_leader _ _ (by omega), asm_cont _ _ _ (by omega) (by omega), asm_done]
  rw [stripLeaderBits_two (192 + cp / 64) (by omega) (by omega)]
  congr 1
  omega

/-- Assembling the three-byte encoding of `cp` recovers `cp`. -/
lemma asm_three (cp : Nat) (h1 : 0x800 ≤ cp) (h2 : cp < 0x10000) :
    char_bytes_to_code_point [224 + cp / 4096, 128 + cp / 64 % 64, 128 + cp % 64] =
      Except.ok cp := by
  unfold char_bytes_to_code_point
  rw [asm_leader _ _ (by omega), asm_cont _ _ _ (by omega) (by omega),
    asm_cont _ _ _ (by omega) (by omega), asm_done]
  rw [stripLeaderBits_three (224 + cp / 4096) (by omega) (by omega)]
  congr 1
  omega

/-- Assembling the four-byte encoding of `cp` recovers `cp`. -/
lemma asm_four (cp : Nat) (h1 : 0x10000 ≤ cp) (h2 : cp < 0x110000) :
    char_bytes_to_code_point [240 + cp / 262144, 128 + cp / 4096 % 64,
      128 + cp / 64 % 64, 128 + cp % 64] = Except.ok cp := by
  unfold char_bytes_to_code_point
  rw [asm_leader _ _ (by omega), asm_cont _ _ _ (by omega) (by omega),
    asm_cont _ _ _ (by omega) (by omega), asm_cont _ _ _ (by omega) (by omega), asm_done]
  rw [stripLeaderBits_four (240 + cp / 262144) (by omega) (by omega)]
  congr 1
  omega

/-- C2: for every code point outside the surrogate range, encoding to
UTF-8 bytes, chunking those bytes, and assembling the single resulting
chunk returns the code point again. -/
theorem c2_round_trip (cp : Nat) (h : cp ≤ 0x10FFFF)
    (hs : cp < 0xD800 ∨ 0xDFFF < cp) :
    encode_code_point cp = Except.ok (utf8_bytes cp) ∧
    chunk_byte_sequence (utf8_bytes cp) = Except.ok [Item.chunk (utf8_bytes cp)] ∧
    char_bytes_to_code_point (utf8_bytes cp) = Except.ok cp := by
  rcases Nat.lt_or_ge cp 0x80 with h1 | h1
  · have henc := encode_one cp h1
    have hbs : utf8_bytes cp = [cp] := by rw [utf8_bytes, henc]; rfl
    refine ⟨by rw [hbs, henc], ?_, ?_⟩
    · rw [hbs]
      exact chunk_step_ascii [] cp [] [] h1 (chunkLoop_nil_empty 0)
    · rw [hbs]
      exact asm_ascii cp [] h1
  rcases Nat.lt_or_ge cp 0x800 with h2 | h2
  · have henc := encode_two cp h1 h2
    have hbs : utf8_bytes cp = [192 + cp / 64, 128 + cp % 64] := by
      rw [utf8_bytes, henc]; rfl
    refine ⟨by rw [hbs, henc], ?_, ?_⟩
    · rw [hbs]
      exact chunk_two _ _ (by omega) (by omega) (by omega) (by omega)
    · rw [hbs]
      exact asm_two cp h1 h2
  rcases Nat.lt_or_ge cp 0x10000 with h3 | h3
  · have henc := encode_three cp h2 h3 hs
    have hbs : utf8_bytes cp = [224 + cp / 4096, 128 + cp / 64 % 64, 128 + cp % 64] := by
      rw [utf8_bytes, henc]; rfl
    refine ⟨by rw [hbs, henc], ?_, ?_⟩
    · rw [hbs]
      exact chunk_three _ _ _ (by omega) (by omega) (by omega) (by omega) (by omega)
        (by omega)
    · rw [hbs]
      exact asm_three cp h2 h3
  · have henc := encode_four cp h3 (by omega)
    have hbs : utf8_bytes cp = [240 + cp / 262144, 128 + cp / 4096 % 64,
        128 + cp / 64 % 64, 128 + cp % 64] := by
      rw [utf8_bytes, henc]; rfl
    refine ⟨by rw [hbs, henc], ?_, ?_⟩
    · rw [hbs]
      exact chunk_four _ _ _ _ (by omega) (by omega) (by omega) (by omega) (by omega)
        (by omega) (by omega) (by omega)
    · rw [hbs]
      exact asm_four cp h3 (by omega)

/-- C2 witness: the round trip at the concrete code point 0x20AC. -/
theorem c2_round_trip_witness :
    encode_code_point 0x20AC = Except.ok (utf8_bytes 0x20AC) ∧
    chunk_byte_sequence (utf8_bytes 0x20AC) = Except.ok [Item.chunk (utf8_bytes 0x20AC)] ∧
    char_bytes_to_code_point (utf8_bytes 0x20AC) = Except.ok 0x20AC :=
  c2_round_trip 0x20AC (by decide) (Or.inl (by decide))

/-- C4 amended: classification by bit prefix is exhaustive over 8-bit
values, but there is no Invalid class and no {2,3,4} bound: a byte with
top bit 0 is emitted alone as a chunk; a byte with top bits 10 is a
(here misplaced) continuation byte; every byte with top bits 11 other
than 0xFF — 0xFE included — is treated as a leader whose declared length
is its count of leading 1 bits, which ranges over 2..7; and on 0xFF
(no 0 bit after the leading 1 run) the chunker aborts with an
AssertionError instead of classifying it. -/
theorem c4_byte_classes (b : Nat) (hb : b < 256) :
    (b < 128 → chunk_byte_sequence [b] = Except.ok [Item.chunk [b]]) ∧
    (128 ≤ b → b < 192 →
      chunk_byte_sequence [b] = Except.ok [Item.fault FaultKind.misplaced [b]]) ∧
    (192 ≤ b → b < 255 →
      chunk_byte_sequence [b] = Except.ok [Item.fault FaultKind.tooFew [b]] ∧
      2 ≤ leadingOnes b ∧ leadingOnes b ≤ 7) ∧
    (b = 255 → chunk_byte_sequence [b] = Except.error PyError.assertionError) := by
  refine ⟨?_, ?_, ?_, ?_⟩
  · intro h
    exact chunk_step_ascii [] b [] [] h (chunkLoop_nil_empty 0)
  · intro h1 h2
    exact chunk_step_cont_misplaced [] b [] [] h1 h2 (chunkLoop_nil_empty 0)
  · intro h1 h2
    refine ⟨?_, ?_⟩
    · exact chunk_step_leader [] b [] _ h1 (by omega)
        (chunkLoop_nil_pending (leadingOnes b - 1) ([] ++ [b]) (by simp))
    · constructor <;> (unfold leadingOnes; split_ifs <;> omega)
  · intro h
    subst h
    rfl

/-- C4 witness: the amended classification at the concrete byte 0xA0. -/
theorem c4_byte_classes_witness :
    chunk_byte_sequence [0xA0] = Except.ok [Item.fault FaultKind.misplaced [0xA0]] :=
  (c4_byte_classes 0xA0 (by decide)).2.1 (by decide) (by decide)

/-- C5 counterexample: the claim says the encoder produces bytes for
surrogate code points without failing; in fact
`bytes(chr(0xD800), "utf8")` raises UnicodeEncodeError (surrogates not
allowed), so the encode direction rejects them. -/
theorem c5_encoder_rejects_surrogate :
    encode_code_point 0xD800 = Except.error PyError.unicodeEncodeError := rfl

/-- C5 amended: only the decode path is permissive about surrogates: the
chunker accepts the three-byte sequence that encodes a surrogate and the
assembler returns the surrogate value without error, while the encoder
(the CPython utf-8 codec invoked on `chr(cp)`) raises
UnicodeEncodeError for every code point in [0xD800, 0xDFFF]. -/
theorem c5_surrogate_decode_only (cp : Nat) (h1 : 0xD800 ≤ cp) (h2 : cp ≤ 0xDFFF) :
    encode_code_point cp = Except.error PyError.unicodeEncodeError ∧
    chunk_byte_sequence [224 + cp / 4096, 128 + cp / 64 % 64, 128 + cp % 64] =
      Except.ok [Item.chunk [224 + cp / 4096, 128 + cp / 64 % 64, 128 + cp % 64]] ∧
    char_bytes_to_code_point [224 + cp / 4096, 128 + cp / 64 % 64, 128 + cp % 64] =
      Except.ok cp := by
  refine ⟨encode_surrogate cp h1 h2, ?_, ?_⟩
  · exact chunk_three _ _ _ (by omega) (by omega) (by omega) (by omega) (by omega)
      (by omega)
  · exact asm_three cp (by omega) (by omega)

/-- C5 witness: the amended statement at the concrete surrogate 0xDB80,
whose three-byte sequence is [0xED, 0xAE, 0x80]. -/
theorem c5_surrogate_decode_only_witness :
    encode_code_point 0xDB80 = Except.error PyError.unicodeEncodeError ∧
    chunk_byte_sequence [0xED, 0xAE, 0x80] =
      Except.ok [Item.chunk [0xED, 0xAE, 0x80]] ∧
    char_bytes_to_code_point [0xED, 0xAE, 0x80] = Except.ok 0xDB80 :=
  c5_surrogate_decode_only 0xDB80 (by decide) (by decide)

/-- C6 counterexample: the claim covers every code point of
[0, 0x10FFFF] and promises exactly 3 bytes on [0x800, 0xFFFF], but at
the surrogate 0xDFFF the encoder produces no bytes at all: it raises
UnicodeEncodeError. -/
theorem c6_no_bytes_for_surrogate :
    encode_code_point 0xDFFF = Except.error PyError.unicodeEncodeError := rfl

/-- C6 amended: for every code point of [0, 0x10FFFF] outside the
surrogate range, the encoder succeeds and produces exactly 1 byte below
0x80, 2 bytes up to 0x7FF, 3 bytes up to 0xFFFF and 4 bytes above. -/
theorem c6_encode_lengths (cp : Nat) (h : cp ≤ 0x10FFFF)
    (hs : cp < 0xD800 ∨ 0xDFFF < cp) :
    encode_code_point cp = Except.ok (utf8_bytes cp) ∧
    (utf8_bytes cp).length =
      (if cp ≤ 0x7F then 1 else if cp ≤ 0x7FF then 2 else if cp ≤ 0xFFFF then 3 else 4) := by
  rcases Nat.lt_or_ge cp 0x80 with h1 | h1
  · have henc := encode_one cp h1
    have hbs : utf8_bytes cp = [cp] := by rw [utf8_bytes, henc]; rfl
    exact ⟨by rw [hbs, henc], by rw [hbs, if_pos (by omega)]; rfl⟩
  rcases Nat.lt_or_ge cp 0x800 with h2 | h2
  · have henc := encode_two cp h1 h2
    have hbs : utf8_bytes cp = [192 + cp / 64, 128 + cp % 64] := by
      rw [utf8_bytes, henc]; rfl
    exact ⟨by rw [hbs, henc], by rw [hbs, if_neg (by omega), if_pos (by omega)]; rfl⟩
  rcases Nat.lt_or_ge cp 0x10000 with h3 | h3
  · have henc := encode_three cp h2 h3 hs
    have hbs : utf8_bytes cp = [224 + cp / 4096, 128 + cp / 64 % 64, 128 + cp % 64] := by
      rw [utf8_bytes, henc]; rfl
    exact ⟨by rw [hbs, henc],
      by rw [hbs, if_neg (by omega), if_neg (by omega), if_pos (by omega)]; rfl⟩
  · have henc := encode_four cp h3 (by omega)
    have hbs : utf8_bytes cp = [240 + cp / 262144, 128 + cp / 4096 % 64,
        128 + cp / 64 % 64, 128 + cp % 64] := by
      rw [utf8_bytes, henc]; rfl
    exact ⟨by rw [hbs, henc],
      by rw [hbs, if_neg (by omega), if_neg (by omega), if_neg (by omega)]; rfl⟩

/-- C6 witness: the amended length table at the concrete code point
0x800, which encodes to exactly 3 bytes. -/
theorem c6_encode_lengths_witness :
    encode_code_point 0x800 = Except.ok (utf8_bytes 0x800) ∧
    (utf8_bytes 0x800).length = 3 := by
  have h := c6_encode_lengths 0x800 (by decide) (Or.inl (by decide))
  refine ⟨h.1, ?_⟩
  rw [h.2]
  decide

/-- C1: the spec says an ASCII byte arriving while a multi-byte sequence
is pending yields a too-few-continuation-bytes fault for the pending
buffer, which is cleared, and the ASCII byte is emitted alone; in
particular [0xE2, 0x41] gives one fault for 0xE2 and one chunk [0x41].
The code instead crashes: the warning at src/utf8.py line 179 formats
`" ".join(bytes_togo)` where `bytes_togo` is an int, raising TypeError
(and the buffer still holds the leader merged with the ASCII byte). -/
theorem c1_ascii_interrupt_crash :
    chunk_byte_sequence [0xE2, 0x41] = Except.error PyError.typeError := rfl

/-- C3: the spec says a leader arriving over a pending buffer reports the
pending buffer, clears it, and starts a new buffer CONTAINING the
leader.  The code appends the new leader to `char_bytes` before the
warning and then clears the whole buffer (src/utf8.py lines 175, 185,
186), so the fault message includes the new leader and the fresh buffer
is empty: for [0xE2, 0xE2, 0x82, 0xAC] the fault covers both leaders and
the emitted chunk [0x82, 0xAC] has lost its leader — a chunk the
assembler itself then rejects with ValueError. -/
theorem c3_leader_interrupt_drops_leader :
    chunk_byte_sequence [0xE2, 0xE2, 0x82, 0xAC] =
      Except.ok [Item.fault FaultKind.tooFew [0xE2, 0xE2], Item.chunk [0x82, 0xAC]] ∧
    char_bytes_to_code_point [0x82, 0xAC] = Except.error PyError.valueError :=
  ⟨rfl, rfl⟩

/-- C7: decoding the single byte 0x80 yields exactly one
misplaced-continuation-byte fault for that byte alone and no chunk
(src/utf8.py lines 192-195). -/
theorem c7_orphan_continuation :
    chunk_byte_sequence [0x80] = Except.ok [Item.fault FaultKind.misplaced [0x80]] := rfl

/-- C4 counterexample: classification is NOT total and failure-free.  On
byte 0xFF (eight 1 bits, no 0) the regular expression `^(1+)0` does not
match and the `assert match` at src/utf8.py line 189 aborts the decode
with AssertionError, contradicting the claim that classification never
fails or aborts on any byte including 0xFF. -/
theorem c4_classification_aborts_on_255 :
    chunk_byte_sequence [0xFF] = Except.error PyError.assertionError := rfl

/-! The representation formatter (src/utf8.py lines 100-108, 232-250).
Python renders `hex(n)[2:].upper()`; `natToHexAux` builds that digit
list most-significant first.  The first argument is fuel, consumed once
per division by 16; fuel `n` suffices for the value `n` because a
positive number has at most `n` hexadecimal digits. -/

/-- One uppercase hexadecimal digit: 0-9 then A-F. -/
def hexDigitUpper (d : Nat) : Char :=
  if d < 10 then Char.ofNat (48 + d) else Char.ofNat (55 + d)

/-- Digits of `n` in base 16, uppercase, most-significant first, no
leading zeros (the digits of `hex(n)[2:].upper()` for positive `n`). -/
def natToHexAux : Nat → Nat → List Char → List Char
  | 0, _, acc => acc
  | fuel + 1, n, acc =>
    if n = 0 then acc else natToHexAux fuel (n / 16) (hexDigitUpper (n % 16) :: acc)

/-- `hex(n)[2:].upper()`: the digit list above, and "0" for zero. -/
def toHexUpper (n : Nat) : String :=
  if n = 0 then "0" else String.mk (natToHexAux n n [])

/-- `pad_hex` (src/utf8.py lines 240-250): left-pad a hexadecimal string
with zeros, to 4 digits when it has at most 4, else to 6; Python
evaluates `"0" * pad_chars` which is empty for a negative count, exactly
the truncated subtraction below. -/
def pad_hex (hex_input : String) (pad_to_arg : Option Nat) : String :=
  let pad_to := match pad_to_arg with
    | none => if hex_input.length ≤ 4 then 4 else 6
    | some p => p
  String.mk (List.replicate (pad_to - hex_input.length) '0') ++ hex_input

/-- The hex output format for one code point (src/utf8.py lines
103-104): `hex(code_point)[2:].upper()` then `pad_hex`. -/
def format_code_point_hex (code_point : Nat) : String :=
  pad_hex (toHexUpper code_point) none

/-- `format_code_point_output` (src/utf8.py lines 232-237).  The string
returned by `unicodedata.name(character)` comes from the platform
Unicode database, so it is a parameter here.  The format string
`"\x7b:9s\x7d \x7b\x7d (\x7b\x7d)"` left-justifies the `U+XXXX:` column
in a 9-column field (padding with spaces on the RIGHT, the Python
default alignment for strings). -/
def format_code_point_output (name : String) (code_point_int : Nat) : String :=
  let code_point_hex := pad_hex (toHexUpper code_point_int) none
  let character := Char.ofNat code_point_int
  let hex_col := "U+" ++ code_point_hex ++ ":"
  hex_col ++ String.mk (List.replicate (9 - hex_col.length) ' ') ++ " " ++
    String.singleton character ++ " (" ++ name ++ ")"

lemma natToHexAux_zero (fuel : Nat) (acc : List Char) : natToHexAux fuel 0 acc = acc := by
  cases fuel <;> simp [natToHexAux]

lemma natToHexAux_len_mono (fuel : Nat) : ∀ (n : Nat) (acc : List Char),
    acc.length ≤ (natToHexAux fuel n acc).length := by
  induction fuel with
  | zero => intro n acc; simp [natToHexAux]
  | succ f ih =>
    intro n acc
    simp only [natToHexAux]
    split
    · exact le_refl _
    · exact le_trans (Nat.le_succ _) (ih (n / 16) (hexDigitUpper (n % 16) :: acc))

lemma natToHexAux_len_le (k : Nat) : ∀ (fuel n : Nat) (acc : List Char),
    n ≤ fuel → n < 16 ^ k → (natToHexAux fuel n acc).length ≤ acc.length + k := by
  induction k with
  | zero =>
    intro fuel n acc hf hk
    have h1 : n < 1 := by simpa using hk
    have hn : n = 0 := by omega
    subst hn
    rw [natToHexAux_zero]
    omega
  | succ k ih =>
    intro fuel n acc hf hk
    cases fuel with
    | zero =>
      have hn : n = 0 := by omega
      subst hn
      rw [natToHexAux_zero]
      omega
    | succ f =>
      by_cases hn : n = 0
      · subst hn
        rw [natToHexAux_zero]
        omega
      · simp only [natToHexAux]
        rw [if_neg hn]
        have h1 : n / 16 ≤ f := by omega
        have h2 : n / 16 < 16 ^ k := by
          rw [pow_succ] at hk
          omega
        have h3 := ih f (n / 16) (hexDigitUpper (n % 16) :: acc) h1 h2
        simp only [List.length_cons] at h3
        omega

lemma natToHexAux_len_gt (k : Nat) : ∀ (fuel n : Nat) (acc : List Char),
    n ≤ fuel → 16 ^ k ≤ n → acc.length + k < (natToHexAux fuel n acc).length := by
  induction k with
  | zero =>
    intro fuel n acc hf hk
    have h1 : 1 ≤ n := by simpa using hk
    cases fuel with
    | zero => omega
    | succ f =>
      simp only [natToHexAux]
      rw [if_neg (by omega)]
      have h2 := natToHexAux_len_mono f (n / 16) (hexDigitUpper (n % 16) :: acc)
      simp only [List.length_cons] at h2
      omega
  | succ k ih =>
    intro fuel n acc hf hk
    have hp : 0 < 16 ^ (k + 1) := by positivity
    have hn : n ≠ 0 := by omega
    cases fuel with
    | zero => omega
    | succ f =>
      simp only [natToHexAux]
      rw [if_neg hn]
      have h1 : n / 16 ≤ f := by omega
      have h2 : 16 ^ k ≤ n / 16 := by
        rw [pow_succ] at hk
        omega
      have h3 := ih f (n / 16) (hexDigitUpper (n % 16) :: acc) h1 h2
      simp only [List.length_cons] at h3
      omega

lemma toHexUpper_length_le (k n : Nat) (hk : 1 ≤ k) (h : n < 16 ^ k) :
    (toHexUpper n).length ≤ k := by
  unfold toHexUpper
  split
  · exact hk
  · have h1 := natToHexAux_len_le k n n [] (le_refl n) h
    simpa using h1

lemma toHexUpper_length_gt (k n : Nat) (h : 16 ^ k ≤ n) :
    k < (toHexUpper n).length := by
  have hp : 0 < 16 ^ k := by positivity
  have hn : n ≠ 0 := by omega
  unfold toHexUpper
  rw [if_neg hn]
  have h1 := natToHexAux_len_gt k n n [] (le_refl n) h
  simpa using h1

lemma pad_hex_length (s : String) :
    (pad_hex s none).length = (if s.length ≤ 4 then 4 else 6) - s.length + s.length := by
  simp [pad_hex]

/-- C9: the hex representation of a code point is padded to 4 digits
when the value fits in 16 bits and to 6 digits otherwise; in particular
0x41 renders as "0041" and 0x10000 as "010000" (src/utf8.py lines
103-104 and 240-250). -/
theorem c9_hex_padding (v : Nat) (h : v ≤ 0x10FFFF) :
    (v < 0x10000 → (format_code_point_hex v).length = 4) ∧
    (0x10000 ≤ v → (format_code_point_hex v).length = 6) ∧
    format_code_point_hex 0x41 = "0041" ∧
    format_code_point_hex 0x10000 = "010000" := by
  have h164 : (16 : Nat) ^ 4 = 65536 := by norm_num
  have h166 : (16 : Nat) ^ 6 = 16777216 := by norm_num
  refine ⟨?_, ?_, by decide, by decide⟩
  · intro hv
    have hlen : (toHexUpper v).length ≤ 4 := toHexUpper_length_le 4 v (by omega) (by omega)
    unfold format_code_point_hex
    rw [pad_hex_length, if_pos hlen]
    omega
  · intro hv
    have hgt : 4 < (toHexUpper v).length := toHexUpper_length_gt 4 v (by omega)
    have hle : (toHexUpper v).length ≤ 6 := toHexUpper_length_le 6 v (by omega) (by omega)
    unfold format_code_point_hex
    rw [pad_hex_length, if_neg (by omega)]
    omega

/-- C9 witness: the padding at the concrete value 0x41. -/
theorem c9_hex_padding_witness :
    (format_code_point_hex 0x41).length = 4 ∧ format_code_point_hex 0x41 = "0041" :=
  ⟨(c9_hex_padding 0x41 (by decide)).1 (by decide), (c9_hex_padding 0x41 (by decide)).2.2.1⟩

/-- C8 counterexample: the claim says the `U+XXXX:` column is
LEFT-padded to 9 columns (spaces before it).  The format string
`\x7b:9s\x7d` left-justifies, so the spaces go AFTER the colon: for
U+0041 the code produces "U+0041:" followed by the fill spaces, not
spaces followed by "U+0041:". -/
theorem c8_not_left_padded :
    format_code_point_output "LATIN CAPITAL LETTER A" 0x41 =
      "U+0041:   A (LATIN CAPITAL LETTER A)" ∧
    format_code_point_output "LATIN CAPITAL LETTER A" 0x41 ≠
      "  U+0041: A (LATIN CAPITAL LETTER A)" := by
  constructor
  · decide
  · decide

/-- C8 amended: the desc line is the string `U+XXXX:` (the padded
uppercase hex of the code point) RIGHT-padded with spaces so the column
occupies at least 9 cells (left-justified), then a space, the literal
character, a space, and the Unicode name in parentheses. -/
theorem c8_desc_line_layout (name : String) (cp : Nat) :
    ∃ k : Nat,
      format_code_point_output name cp =
        "U+" ++ pad_hex (toHexUpper cp) none ++ ":" ++
          String.mk (List.replicate k ' ') ++ " " ++
          String.singleton (Char.ofNat cp) ++ " (" ++ name ++ ")" ∧
      ("U+" ++ pad_hex (toHexUpper cp) none ++ ":").length + k =
        max 9 ("U+" ++ pad_hex (toHexUpper cp) none ++ ":").length := by
  refine ⟨9 - ("U+" ++ pad_hex (toHexUpper cp) none ++ ":").length, rfl, by omega⟩

/-! The bytes-input path for one hex token (src/utf8.py lines 62-71 and
145-168): `int(hex_input, 16)` parses the cleaned token, `bin(...)[2:]`
renders its binary digits WITHOUT leading zeros (and as the single digit
"0" for zero), `pad_binary` left-pads with zeros to the next multiple of
8, and `binary_to_bytes` slices the result into 8-digit groups.  Here
the binary string is represented by its value and its digit count. -/

/-- The value of one hexadecimal character (after `clean_up_hex` only
0-9 and A-F occur). -/
def hexVal (c : Char) : Nat :=
  if c.toNat ≤ 57 then c.toNat - 48 else c.toNat - 55

/-- `int(s, 16)` for a cleaned-up hexadecimal string. -/
def parseHex (s : String) : Nat :=
  s.data.foldl (fun acc c => acc * 16 + hexVal c) 0

/-- Number of binary digits of `n` (0 for `n = 0`); the first argument
is fuel, consumed once per division by 2, and fuel `n` suffices. -/
def binLenAux : Nat → Nat → Nat
  | 0, _ => 0
  | fuel + 1, n => if n = 0 then 0 else binLenAux fuel (n / 2) + 1

/-- `len(bin(v)[2:])`: binary digits without leading zeros; `bin(0)` is
"0b0", one digit. -/
def pyBinLen (v : Nat) : Nat :=
  if v = 0 then 1 else binLenAux v v

/-- `num_bytes` of `pad_binary` (src/utf8.py line 158): the number of
8-digit groups after padding. -/
def num_bytes_of (v : Nat) : Nat :=
  (pyBinLen v - 1) / 8 + 1

/-- `binary_to_bytes` over the padded string of `pad_binary`
(src/utf8.py lines 156-168): the i-th 8-digit slice of the
`num_bytes * 8`-digit string whose value is `v`, as a byte value. -/
def binary_to_bytes (v : Nat) : List Nat :=
  (List.range (num_bytes_of v)).map (fun i => v / 256 ^ (num_bytes_of v - 1 - i) % 256)

/-- One hex token through `hex_to_binary`, `pad_binary` and
`binary_to_bytes` (src/utf8.py lines 65-71). -/
def hex_to_bytes (s : String) : List Nat :=
  binary_to_bytes (parseHex s)

lemma binLenAux_zero (fuel : Nat) : binLenAux fuel 0 = 0 := by
  cases fuel <;> simp [binLenAux]

lemma binLenAux_pos (fuel n : Nat) (h : n ≤ fuel) (hn : n ≠ 0) :
    1 ≤ binLenAux fuel n := by
  cases fuel with
  | zero => omega
  | succ f =>
    simp only [binLenAux]
    rw [if_neg hn]
    omega

lemma binLenAux_lt (fuel : Nat) : ∀ n : Nat, n ≤ fuel → n < 2 ^ binLenAux fuel n := by
  induction fuel with
  | zero =>
    intro n h
    have hn : n = 0 := by omega
    subst hn
    simp [binLenAux]
  | succ f ih =>
    intro n h
    simp only [binLenAux]
    split
    · rename_i h0
      subst h0
      simp
    · rename_i h0
      have h1 : n / 2 ≤ f := by omega
      have h2 := ih (n / 2) h1
      rw [pow_succ]
      omega

lemma binLenAux_ge (fuel : Nat) : ∀ n : Nat, n ≤ fuel → n ≠ 0 →
    2 ^ (binLenAux fuel n - 1) ≤ n := by
  induction fuel with
  | zero => intro n h hn; omega
  | succ f ih =>
    intro n h hn
    simp only [binLenAux]
    rw [if_neg hn]
    by_cases h2 : n / 2 = 0
    · rw [h2, binLenAux_zero]
      have he : (0 : Nat) + 1 - 1 = 0 := rfl
      rw [he, pow_zero]
      omega
    · have h1 : n / 2 ≤ f := by omega
      have hB := binLenAux_pos f (n / 2) h1 h2
      have h3 := ih (n / 2) h1 h2
      have hpow : 2 ^ (binLenAux f (n / 2) + 1 - 1) =
          2 ^ (binLenAux f (n / 2) - 1) * 2 := by
        rw [← pow_succ]
        congr 1
        omega
      rw [hpow]
      omega

lemma pyBinLen_pos (v : Nat) : 1 ≤ pyBinLen v := by
  unfold pyBinLen
  split
  · exact le_refl 1
  · rename_i h
    exact binLenAux_pos v v (le_refl v) h

lemma pyBinLen_lt (v : Nat) : v < 2 ^ pyBinLen v := by
  unfold pyBinLen
  split
  · rename_i h
    subst h
    norm_num
  · exact binLenAux_lt v v (le_refl v)

lemma pyBinLen_ge (v : Nat) (hv : v ≠ 0) : 2 ^ (pyBinLen v - 1) ≤ v := by
  unfold pyBinLen
  rw [if_neg hv]
  exact binLenAux_ge v v (le_refl v) hv

/-- Folding the big-endian base-256 digits of `v` back together
recovers `v`. -/
lemma bytes_fold (nb : Nat) : ∀ v : Nat, v < 256 ^ nb →
    ((List.range nb).map (fun i => v / 256 ^ (nb - 1 - i) % 256)).foldl
      (fun acc b => acc * 256 + b) 0 = v := by
  induction nb with
  | zero =>
    intro v hv
    have h1 : v < 1 := by simpa using hv
    simp
    omega
  | succ nb ih =>
    intro v hv
    rw [List.range_succ, List.map_append, List.foldl_append]
    have hmap : (List.range nb).map (fun i => v / 256 ^ (nb + 1 - 1 - i) % 256) =
        (List.range nb).map (fun i => v / 256 / 256 ^ (nb - 1 - i) % 256) := by
      apply List.map_congr_left
      intro i hi
      have hi2 : i < nb := List.mem_range.mp hi
      have he : nb + 1 - 1 - i = nb - 1 - i + 1 := by omega
      rw [Nat.div_div_eq_div_mul, ← pow_succ', he]
    rw [hmap, ih (v / 256) (by rw [pow_succ] at hv; omega)]
    simp only [List.map_cons, List.map_nil, List.foldl_cons, List.foldl_nil]
    have he2 : nb + 1 - 1 - nb = 0 := by omega
    rw [he2, pow_zero, Nat.div_one]
    omega

/-- C10: a single undelimited hexadecimal token is parsed as one
integer and expanded to the minimal whole number of bytes holding its
value — the byte list reassembles to the value, its length is the
byte-count of the padded binary string, the value fits in that many
bytes and (unless one byte) needs all of them; so the token "0041"
yields the single byte 0x41, not the pair 0x00 0x41, while the all-zero
token "0000" yields exactly one zero byte. -/
theorem c10_minimal_bytes :
    (∀ v : Nat,
      (binary_to_bytes v).length = (pyBinLen v - 1) / 8 + 1 ∧
      (binary_to_bytes v).foldl (fun acc b => acc * 256 + b) 0 = v ∧
      v < 256 ^ (binary_to_bytes v).length ∧
      ((binary_to_bytes v).length = 1 ∨ 256 ^ ((binary_to_bytes v).length - 1) ≤ v)) ∧
    hex_to_bytes "0041" = [0x41] ∧
    hex_to_bytes "0000" = [0] := by
  refine ⟨?_, by decide, by decide⟩
  intro v
  have hL := pyBinLen_pos v
  have hlen : (binary_to_bytes v).length = num_bytes_of v := by
    simp [binary_to_bytes]
  have hnb1 : 8 * (num_bytes_of v - 1) ≤ pyBinLen v - 1 := by
    unfold num_bytes_of
    omega
  have hnb2 : pyBinLen v ≤ 8 * num_bytes_of v := by
    unfold num_bytes_of
    omega
  have hv256 : v < 256 ^ num_bytes_of v := by
    calc v < 2 ^ pyBinLen v := pyBinLen_lt v
      _ ≤ 2 ^ (8 * num_bytes_of v) := Nat.pow_le_pow_right (by norm_num) hnb2
      _ = 256 ^ num_bytes_of v := by rw [pow_mul]; norm_num
  refine ⟨by rw [hlen]; rfl, ?_, by rw [hlen]; exact hv256, ?_⟩
  · exact bytes_fold (num_bytes_of v) v hv256
  · rw [hlen]
    by_cases h1 : num_bytes_of v = 1
    · exact Or.inl h1
    · refine Or.inr ?_
      have h9 : 9 ≤ pyBinLen v := by
        unfold num_bytes_of at h1
        omega
      have hv0 : v ≠ 0 := by
        intro h0
        rw [h0] at h9
        norm_num [pyBinLen] at h9
      calc 256 ^ (num_bytes_of v - 1) = 2 ^ (8 * (num_bytes_of v - 1)) := by
            rw [pow_mul]; norm_num
        _ ≤ 2 ^ (pyBinLen v - 1) := Nat.pow_le_pow_right (by norm_num) hnb1
        _ ≤ v := pyBinLen_ge v hv0

end Utf8
